import Mathlib

/-!
# Verification of the ETF-Filings-Monitor dashboard core (src/static/app.js)

This file shallowly embeds the link-resolution, identifier-normalization,
filter/sort, metrics and refresh logic of `src/static/app.js` and proves the
specification claims about it.

Modelling conventions:
* JS strings are Lean `String`; most computation happens on `List Char`
  (`String.toList`/`String.mk`), which is faithful since the code only uses
  ASCII-level operations (trim, toLowerCase, split, includes, endsWith).
* `new URL(value)` is a platform primitive; it is modelled by `parseUrl`,
  which covers the fragment the code relies on: scheme validation,
  `scheme://host/path?query#fragment` decomposition, host lowercasing,
  userinfo/port removal, and the empty-path-to-"/" normalization.  Exotic
  WHATWG behaviours the dashboard never depends on (percent-encoding,
  dot-segment removal, special-scheme hosts without `//`) are not modelled.
  A parse failure (JS: a thrown `TypeError`, always caught by the code)
  is `Option.none`.
* `URLSearchParams.get` is modelled without percent/plus decoding, which the
  code never relies on.
* JS `Number.parseInt` on a non-empty all-digit string followed by
  `String(...)` re-rendering computes in IEEE-754 binary64 doubles.  It is
  modelled as the exact integer value (`digitsToNat`) rounded onto the
  double integer grid (`roundToDouble`: round to nearest, ties to even,
  `Infinity` from `2 ^ 1024`) and rendered back by ECMAScript
  `Number::toString` (`jsDoubleToString`: exact decimal up to `2 ^ 53`,
  where the shortest round-tripping decimal is the integer itself;
  shortest-significand search with zero padding below `10 ^ 21` and
  exponential notation beyond).
* Falsy string checks (`url || ""`, `x && y`) are modelled by comparison
  with the empty string (`jsOrS`).
-/

/-! ## Character-list helpers -/

/-- JS `String.prototype.trim` whitespace (the code only meets ASCII). -/
def isWspChar (c : Char) : Bool :=
  c = ' ' || c = '\t' || c = '\n' || c = '\r' || c = '\x0b' || c = '\x0c'

/-- `value.trim()` on the underlying character list. -/
def trimChars (l : List Char) : List Char :=
  ((l.dropWhile isWspChar).reverse.dropWhile isWspChar).reverse

/-- `hay.startsWith(pat)` on character lists. -/
def leadsWith : List Char → List Char → Bool
  | [], _ => true
  | _ :: _, [] => false
  | p :: ps, c :: cs => p = c && leadsWith ps cs

/-- `hay.endsWith(pat)` on character lists. -/
def closesWith (pat l : List Char) : Bool :=
  leadsWith pat.reverse l.reverse

/-- `hay.includes(pat)` on character lists. -/
def hasSub (pat : List Char) : List Char → Bool
  | [] => pat.isEmpty
  | c :: cs => leadsWith pat (c :: cs) || hasSub pat cs

/-- ASCII lowercasing, JS `toLowerCase` on the code's data. -/
def lowerChars (l : List Char) : List Char := l.map Char.toLower

/-- ASCII uppercasing, JS `toUpperCase` on the code's data. -/
def upperChars (l : List Char) : List Char := l.map Char.toUpper

/-- `lowerPath.split("/").filter(Boolean).pop() || ""`: the last
non-empty slash-delimited segment, `[]` when there is none. -/
def lastSeg (l : List Char) : List Char :=
  ((l.reverse.dropWhile (fun c => c = '/')).takeWhile (fun c => c ≠ '/')).reverse

/-- The part of an authority after its last `@` (the whole authority when
there is no userinfo). -/
def afterLastAt (l : List Char) : List Char :=
  (l.reverse.takeWhile (fun c => c ≠ '@')).reverse

/-- `s.split(sep)` on character lists (always returns at least one chunk). -/
def splitOnChar (sep : Char) : List Char → List (List Char)
  | [] => [[]]
  | c :: t =>
    if c = sep then [] :: splitOnChar sep t
    else
      match splitOnChar sep t with
      | [] => [[c]]
      | h :: r => (c :: h) :: r

/-! ## The URL platform primitive (`new URL`) -/

/-- Result of a successful `new URL(value)`: the components the dashboard
reads (`hostname`, `pathname`, `searchParams`, `toString`). -/
structure JsUrl where
  scheme : String
  hasAuth : Bool
  host : String
  path : String
  query : Option String
  frag : Option String
deriving DecidableEq

/-- Characters allowed in a URL scheme after the initial letter. -/
def schemeCharOk (c : Char) : Bool :=
  c.isAlpha || c.isDigit || c = '+' || c = '-' || c = '.'

/-- `new URL(value)` on the underlying character list; `none` models the
thrown `TypeError` on malformed input (always caught by the code). -/
def parseUrlChars (l : List Char) : Option JsUrl :=
  let sch := l.takeWhile (fun c => c ≠ ':')
  match l.dropWhile (fun c => c ≠ ':') with
  | [] => none
  | _ :: afterColon =>
    if sch = [] then none
    else if !(sch.headD ' ').isAlpha then none
    else if !sch.all schemeCharOk then none
    else
      let schemeL := lowerChars sch
      let nofrag := afterColon.takeWhile (fun c => c ≠ '#')
      let frag : Option String :=
        match afterColon.dropWhile (fun c => c ≠ '#') with
        | [] => none
        | _ :: f => some (String.mk f)
      match nofrag with
      | '/' :: '/' :: tail =>
        let auth := tail.takeWhile (fun c => c ≠ '/' && c ≠ '?')
        let afterAuth := tail.dropWhile (fun c => c ≠ '/' && c ≠ '?')
        let host := lowerChars ((afterLastAt auth).takeWhile (fun c => c ≠ ':'))
        if host = [] then none
        else
          let path := afterAuth.takeWhile (fun c => c ≠ '?')
          let query : Option String :=
            match afterAuth.dropWhile (fun c => c ≠ '?') with
            | [] => none
            | _ :: q => some (String.mk q)
          some ⟨String.mk schemeL, true, String.mk host,
                String.mk (if path = [] then ['/'] else path), query, frag⟩
      | _ =>
        let path := nofrag.takeWhile (fun c => c ≠ '?')
        let query : Option String :=
          match nofrag.dropWhile (fun c => c ≠ '?') with
          | [] => none
          | _ :: q => some (String.mk q)
        some ⟨String.mk schemeL, false, "", String.mk path, query, frag⟩

/-- `new URL(s)`. -/
def parseUrl (s : String) : Option JsUrl := parseUrlChars s.toList

/-- `parsed.toString()`. -/
def urlToString (u : JsUrl) : String :=
  u.scheme ++ ":" ++ (if u.hasAuth then "//" ++ u.host else "") ++ u.path
    ++ (match u.query with | none => "" | some q => "?" ++ q)
    ++ (match u.frag with | none => "" | some f => "#" ++ f)

/-- One `name=value` lookup in a query string (first match wins), as
`URLSearchParams.get` does on the code's plain (unencoded) values. -/
def paramGet (name : List Char) (q : List Char) : Option (List Char) :=
  (splitOnChar '&' q).findSome? fun pair =>
    if pair.takeWhile (fun c => c ≠ '=') = name then
      some (match pair.dropWhile (fun c => c ≠ '=') with
            | [] => []
            | _ :: t => t)
    else none

/-- `parsed.searchParams.get("doc") || ""`. -/
def searchParamDoc (u : JsUrl) : String :=
  match u.query with
  | none => ""
  | some q =>
    match paramGet ("doc".toList) q.toList with
    | none => ""
    | some v => String.mk v

/-! ## Data model: one filing alert record -/

/-- A `FilingAlert` record as consumed by the dashboard (absent/null JS
fields are the empty string resp. `false`, matching the code's
`String(x || "")` / `Boolean(x)` coercions). -/
structure FilingAlert where
  company_name : String := ""
  cik : String := ""
  accession_number : String := ""
  form_type : String := ""
  is_crypto : Bool := false
  email_sent : Bool := false
  error : String := ""
  synopsis : String := ""
  matched_keywords : List String := []
  created_at : String := ""
  updated : String := ""
  primary_document_url : String := ""
  sec_filing_url : String := ""
  sec_index_url : String := ""
deriving DecidableEq

/-! ## IdentifierNormalizer -/

/-- `String(x).replace(/\D+/g, "")`: keep only the decimal digits. -/
def digitsOf (l : List Char) : List Char := l.filter Char.isDigit

/-- Numeric value of one digit character. -/
def digitVal (c : Char) : Nat := c.toNat - 48

/-- `Number.parseInt(digits, 10)` on an all-digit string. -/
def digitsToNat (l : List Char) : Nat :=
  l.foldl (fun n c => n * 10 + digitVal c) 0

/-- The character of one decimal digit. -/
def decDigitChar (n : Nat) : Char := Char.ofNat (48 + n)

/-- Fuel-driven decimal rendering (most significant digit first). -/
def natToDigitsAux : Nat → Nat → List Char
  | 0, _ => []
  | fuel + 1, n => if n = 0 then [] else natToDigitsAux fuel (n / 10) ++ [decDigitChar (n % 10)]

/-- `String(n)` for a natural number: decimal rendering. -/
def natToDecimal (n : Nat) : String :=
  if n = 0 then "0" else String.mk (natToDigitsAux n n)

/-- Base-2 integer logarithm, fuel-driven (`natLog2 n = e` with
`2 ^ e ≤ n < 2 ^ (e + 1)` for `n ≥ 1`). -/
def natLog2Aux : Nat → Nat → Nat
  | 0, _ => 0
  | fuel + 1, n => if n ≤ 1 then 0 else natLog2Aux fuel (n / 2) + 1

/-- Base-2 integer logarithm. -/
def natLog2 (n : Nat) : Nat := natLog2Aux n n

/-- `2 ^ 53` as a literal (the bound of the exactly-representable integers
of IEEE-754 binary64); see `twoPow53_eq`. -/
def twoPow53 : Nat := 9007199254740992

/-- `2 ^ 1024` as a literal (the IEEE-754 binary64 overflow threshold); see
`twoPow1024_eq`. -/
def twoPow1024 : Nat := 179769313486231590772930519078902473361797697894230657273430081157732675805500963132708477322407536021120113879871393357658789768814416622492847430639474124377767893424865485276302219601246094119453082952085005768838150682342462881473913110540827237163350510684586298239947245938479716304835356329624224137216

/-- The value of the IEEE-754 binary64 double nearest to the nonnegative
integer `n` (round to nearest, ties to even).  Integers up to `2 ^ 53` are
exactly representable; above, the representable integers are the multiples
of `2 ^ (e - 52)` where `2 ^ e ≤ n < 2 ^ (e + 1)`.  A result `≥ 2 ^ 1024`
stands for the overflow to `Infinity` (resolved by `jsDoubleToString`). -/
def roundToDouble (n : Nat) : Nat :=
  if n ≤ twoPow53 then n
  else
    let ulp := 2 ^ (natLog2 n - 52)
    let low := n / ulp * ulp
    let rem := n % ulp
    if 2 * rem < ulp then low
    else if 2 * rem > ulp then low + ulp
    else if n / ulp % 2 = 0 then low else low + ulp

/-- Remove trailing zero decimal digits (fuel-driven). -/
def stripTrailingZeros : Nat → Nat → Nat
  | 0, s => s
  | fuel + 1, s => if s ≠ 0 && s % 10 = 0 then stripTrailingZeros fuel (s / 10) else s

/-- The shortest-significand search of ECMAScript `Number::toString`: the
smallest significant-digit count `p` (tried upward from `1` by fuel) such
that some `p`-digit integer `s` satisfies `roundToDouble (s * 10 ^ (k - p))
= r`, where `k` is the digit count of `r`.  Only the two nearest grid
points `r / 10 ^ (k - p)` and its successor can qualify.  Returns the pair
`(s, k - p)`. -/
def shortestSigAux (r k : Nat) : Nat → Nat → Option (Nat × Nat)
  | 0, _ => none
  | fuel + 1, p =>
    let pow := 10 ^ (k - p)
    let q := r / pow
    if roundToDouble (q * pow) = r then some (q, k - p)
    else if roundToDouble ((q + 1) * pow) = r then some (q + 1, k - p)
    else shortestSigAux r k fuel (p + 1)

/-- Exponential notation `d.ddd…e+X` of ECMAScript `Number::toString`, for
significand `s` (no trailing zeros) and decimal digit count `n` of the
value. -/
def jsExpRender (s n : Nat) : String :=
  match natToDigitsAux s s with
  | [] => "0"
  | [d] => String.mk [d] ++ "e+" ++ natToDecimal (n - 1)
  | d :: rest => String.mk [d] ++ "." ++ String.mk rest ++ "e+" ++ natToDecimal (n - 1)

/-- ECMAScript `String(m)` for a nonnegative-integer double value `r` (as
produced by `roundToDouble`): `"Infinity"` from `2 ^ 1024` up; below
`2 ^ 53` the shortest decimal representation of an exactly-representable
integer is the integer itself, so the exact decimal rendering; otherwise
the shortest significand `s` with `roundToDouble (s * 10 ^ e) = r`, printed
as digits padded with zeros when the value has at most 21 digits and in
exponential notation beyond. -/
def jsDoubleToString (r : Nat) : String :=
  if twoPow1024 ≤ r then "Infinity"
  else if r ≤ twoPow53 then natToDecimal r
  else
    let k := (natToDigitsAux r r).length
    match shortestSigAux r k k 1 with
    | none => natToDecimal r
    | some (s0, e10) =>
      let s := stripTrailingZeros s0 s0
      let n := e10 + (natToDigitsAux s0 s0).length
      if n ≤ 21 then natToDecimal (s * 10 ^ (n - (natToDigitsAux s s).length))
      else jsExpRender s n

/-- `normalizeCik`: strip non-digits; empty stays empty; otherwise
`String(Number.parseInt(digits, 10))` — the digits are parsed to the
nearest IEEE-754 double (the exact mathematical integer rounded by
`roundToDouble`; ECMAScript permits, and V8 performs, correct rounding
beyond 20 significant digits) and that double is rendered back by
`jsDoubleToString`. -/
def normalizeCik (cik : String) : String :=
  let digits := digitsOf cik.toList
  if digits = [] then "" else jsDoubleToString (roundToDouble (digitsToNat digits))

/-- `normalizeAccessionDigits`: strip non-digits, no numeric parse. -/
def normalizeAccessionDigits (accession : String) : String :=
  String.mk (digitsOf accession.toList)

/-- `buildEdgarIndexUrl(cik, accession)`. -/
def buildEdgarIndexUrl (cik accession : String) : String :=
  let cleanCik := normalizeCik cik
  let rawAccession := String.mk (trimChars accession.toList)
  let cleanAccession := normalizeAccessionDigits accession
  if cleanCik = "" || cleanAccession = "" || rawAccession = "" then ""
  else "https://www.sec.gov/Archives/edgar/data/" ++ cleanCik ++ "/"
        ++ cleanAccession ++ "/" ++ rawAccession ++ "-index.html"

/-! ## LinkResolver -/

/-- `/sec\.gov$/i.test(hostname)`: case-insensitive suffix test. -/
def secGovHostTest (host : String) : Bool :=
  closesWith ("sec.gov".toList) (lowerChars host.toList)

/-- `canonicalizeSecUrl(url, alert)` from `src/static/app.js`. -/
def canonicalizeSecUrl (url : String) (alert : FilingAlert) : String :=
  let value := String.mk (trimChars url.toList)
  if value = "" then ""
  else
    match parseUrl value with
    | none => ""
    | some parsed =>
      if !secGovHostTest parsed.host then ""
      else
        let lowerPath := String.mk (lowerChars parsed.path.toList)
        if lowerPath = "/ix" then
          if leadsWith ("/archives/".toList) (lowerChars (searchParamDoc parsed).toList) then
            urlToString parsed
          else ""
        else if !hasSub ("/archives/".toList) lowerPath.toList then ""
        else
          let last := lastSeg lowerPath.toList
          if last = "index.html".toList || last = "index.htm".toList then
            buildEdgarIndexUrl alert.cik alert.accession_number
          else if !last.contains '.' then
            buildEdgarIndexUrl alert.cik alert.accession_number
          else urlToString parsed

/-- `isUsableSecFilingUrl(url)` from `src/static/app.js`. -/
def isUsableSecFilingUrl (url : String) : Bool :=
  let value := String.mk (trimChars url.toList)
  if value = "" then false
  else
    match parseUrl value with
    | none => false
    | some parsed =>
      if !secGovHostTest parsed.host then false
      else if parsed.path = "/" || parsed.path = "" then false
      else
        let lowerPath := String.mk (lowerChars parsed.path.toList)
        if lowerPath = "/ix" then
          leadsWith ("/archives/".toList) (lowerChars (searchParamDoc parsed).toList)
        else if !hasSub ("/archives/".toList) lowerPath.toList then false
        else
          let last := lastSeg lowerPath.toList
          if !last.contains '.' then false
          else if last = "index.html".toList || last = "index.htm".toList then false
          else true

/-- `toIxViewerUrl(url)` from `src/static/app.js`. -/
def toIxViewerUrl (url : String) : String :=
  let value := String.mk (trimChars url.toList)
  if value = "" then ""
  else
    match parseUrl value with
    | none => ""
    | some parsed =>
      if !secGovHostTest parsed.host then ""
      else
        let lowerPath := String.mk (lowerChars parsed.path.toList)
        if lowerPath = "/ix" then urlToString parsed
        else if !hasSub ("/archives/".toList) lowerPath.toList then ""
        else
          let last := lastSeg lowerPath.toList
          if !last.contains '.' then ""
          else if last = "index.html".toList || last = "index.htm".toList then ""
          else "https://www.sec.gov/ix?doc=" ++ parsed.path

/-- The two displayable links derived per record. -/
structure ResolvedLinks where
  secLink : String
  primaryLink : String
deriving DecidableEq

/-- JS `a || b` on strings (empty is the only falsy string). -/
def jsOrS (a b : String) : String := if a = "" then b else a

/-- `resolveLinks(alert)` from `src/static/app.js`. -/
def resolveLinks (alert : FilingAlert) : ResolvedLinks :=
  let candidates := [canonicalizeSecUrl alert.primary_document_url alert,
                     canonicalizeSecUrl alert.sec_filing_url alert,
                     canonicalizeSecUrl alert.sec_index_url alert]
  let found := (candidates.find? (fun item => isUsableSecFilingUrl item)).getD ""
  let best := jsOrS (jsOrS found (buildEdgarIndexUrl alert.cik alert.accession_number)) "#"
  let primaryCandidate := canonicalizeSecUrl alert.primary_document_url alert
  let primary := if isUsableSecFilingUrl primaryCandidate then primaryCandidate else ""
  let viewer := toIxViewerUrl best
  { secLink := jsOrS viewer best
    primaryLink := if primary ≠ "" && primary ≠ jsOrS viewer best then primary else "" }

/-! ## RecordFilterSort -/

/-- The record's sort key: `new Date(a.created_at || a.updated || 0).getTime()`.
`dateParse` is the platform's `Date` string parser (milliseconds since the
epoch; `none` models `NaN` for an unparseable string); the numeric `0` of the
falsy fallback is the epoch itself. -/
def recKey (dateParse : String → Option Int) (a : FilingAlert) : Option Int :=
  if a.created_at ≠ "" then dateParse a.created_at
  else if a.updated ≠ "" then dateParse a.updated
  else some 0

/-- The sort comparator `(a, b) => bTime - aTime`, after the engine's
coercion of a `NaN` comparator result to `+0`. -/
def jsCmp (dateParse : String → Option Int) (a b : FilingAlert) : Int :=
  match recKey dateParse a, recKey dateParse b with
  | some x, some y => y - x
  | _, _ => 0

/-- Insert into an already-comparator-ordered list, before the first element
the new one need not follow: the stable-sort insertion step. -/
def insertOrdered (cmp : α → α → Int) (a : α) : List α → List α
  | [] => [a]
  | b :: l => if cmp a b ≤ 0 then a :: b :: l else b :: insertOrdered cmp a l

/-- `Array.prototype.sort(cmp)`: a stable comparison sort (the concrete
stable algorithm is the engine's choice; any stable one realizes the
ECMAScript contract for consistent comparators). -/
def jsStableSort (cmp : α → α → Int) (l : List α) : List α :=
  l.foldr (insertOrdered cmp) []

/-- The `.sort(...)` step of `filterAlerts`. -/
def sortRecords (dateParse : String → Option Int) (l : List FilingAlert) : List FilingAlert :=
  jsStableSort (jsCmp dateParse) l

/-- The `.filter(...)` predicate of `filterAlerts` for one record, given the
form filter value and the lower-cased trimmed query. -/
def matchesFilter (formFilter queryLower : String) (a : FilingAlert) : Bool :=
  let form := String.mk (upperChars a.form_type.toList)
  if formFilter ≠ "ALL" && form ≠ formFilter then false
  else if queryLower = "" then true
  else
    let haystack := String.mk (lowerChars
      (String.intercalate " " [a.company_name, a.cik, a.accession_number,
                               a.synopsis, a.form_type]).toList)
    hasSub queryLower.toList haystack.toList

/-- `filterAlerts()` from `src/static/app.js`: filter by form/query, then
sort. -/
def filterAlerts (dateParse : String → Option Int)
    (formFilter rawQuery : String) (alerts : List FilingAlert) : List FilingAlert :=
  let query := String.mk (lowerChars (trimChars rawQuery.toList))
  sortRecords dateParse (alerts.filter (matchesFilter formFilter query))

/-! ## MetricsAggregator -/

/-- The four dashboard metrics. -/
structure Metrics where
  total : Nat
  cryptoCount : Nat
  regularFormCount : Nat
  emailSentCount : Nat
deriving DecidableEq

/-- `updateMetrics(alerts)` from `src/static/app.js`, computed over the full
record set. -/
def updateMetrics (alerts : List FilingAlert) : Metrics :=
  { total := alerts.length
    cryptoCount := (alerts.filter (fun a => a.is_crypto)).length
    regularFormCount := (alerts.filter (fun a =>
      ["485APOS", "485BPOS"].contains (String.mk (upperChars a.form_type.toList)))).length
    emailSentCount := (alerts.filter (fun a => a.email_sent)).length }

/-! ## RefreshScheduler state machine

The mutable page state the refresh loop and the filter controls touch.
`σ` is the status payload type and `renderStatus` the status-line
formatter (`updateStatusLine`'s locale-dependent summary text, a platform
concern no claim inspects). -/

structure AppState (σ : Type) where
  cachedStatus : Option σ
  allAlerts : List FilingAlert
  formFilter : String
  query : String
  statusLine : String
  metrics : Metrics
  visible : List FilingAlert
  visibleCount : Nat

/-- `applyFiltersAndRender()`: recompute the visible list and its count from
the cached full set and the current filter/search state. -/
def applyFiltersAndRender (dateParse : String → Option Int)
    (s : AppState σ) : AppState σ :=
  let filtered := filterAlerts dateParse s.formFilter s.query s.allAlerts
  { s with visible := filtered, visibleCount := filtered.length }

/-- The form-filter `change` event handler path. -/
def onFormFilterChange (dateParse : String → Option Int)
    (s : AppState σ) (v : String) : AppState σ :=
  applyFiltersAndRender dateParse { s with formFilter := v }

/-- The search `input` event handler path. -/
def onSearchInput (dateParse : String → Option Int)
    (s : AppState σ) (q : String) : AppState σ :=
  applyFiltersAndRender dateParse { s with query := q }

/-- One `refreshAll()` tick.  The two jointly-awaited reads arrive as
`Except` values (`Promise.all`: any rejection rejects the pair); on success
both cache fields are replaced and status line, metrics and visible list are
recomputed; on failure only the status line is replaced. -/
def refreshAll (dateParse : String → Option Int) (renderStatus : σ → String)
    (s : AppState σ) (statusRes : Except String σ)
    (alertsRes : Except String (List FilingAlert)) : AppState σ :=
  match statusRes, alertsRes with
  | Except.ok status, Except.ok alerts =>
    let s1 := { s with cachedStatus := some status, allAlerts := alerts }
    let s2 := { s1 with statusLine := renderStatus status }
    let s3 := { s2 with metrics := updateMetrics alerts }
    applyFiltersAndRender dateParse s3
  | Except.error e, _ =>
    { s with statusLine := "Dashboard refresh failed: " ++ e }
  | _, Except.error e =>
    { s with statusLine := "Dashboard refresh failed: " ++ e }

/-- A `Date`-parser instance for the concrete timestamps used in the
counterexamples below, agreeing with the JS `Date` parser at these points
(values in milliseconds since the epoch) and on their unparseability. -/
def modelDateMs (s : String) : Option Int :=
  if s = "2024-01-01T00:00:00Z" then some 1704067200000
  else if s = "2024-06-01T00:00:00Z" then some 1717200000000
  else none


/-! ## Helper lemmas: character-list operations -/

theorem takeWhile_stop {p : α → Bool} {c : α} (xs ys : List α)
    (hxs : ∀ x ∈ xs, p x = true) (hc : p c = false) :
    (xs ++ c :: ys).takeWhile p = xs := by
  rw [List.takeWhile_append_of_pos hxs,
      List.takeWhile_cons_of_neg (by simp [hc]), List.append_nil]

theorem dropWhile_stop {p : α → Bool} {c : α} (xs ys : List α)
    (hxs : ∀ x ∈ xs, p x = true) (hc : p c = false) :
    (xs ++ c :: ys).dropWhile p = c :: ys := by
  rw [List.dropWhile_append_of_pos hxs, List.dropWhile_cons_of_neg (by simp [hc])]

theorem leadsWith_append (p rest : List Char) : leadsWith p (p ++ rest) = true := by
  induction p with
  | nil => rfl
  | cons a t ih => simp [leadsWith, ih]

theorem hasSub_of_lead {p l : List Char} (h : leadsWith p l = true) :
    hasSub p l = true := by
  cases l with
  | nil =>
    cases p with
    | nil => rfl
    | cons c t => simp [leadsWith] at h
  | cons c t => simp [hasSub, h]

theorem closesWith_append (s l : List Char) : closesWith s (l ++ s) = true := by
  unfold closesWith
  rw [List.reverse_append]
  exact leadsWith_append _ _

theorem lastSeg_append (l s : List Char) (hne : s ≠ [])
    (hs : ∀ c ∈ s, c ≠ '/') :
    lastSeg (l ++ s) = (l.reverse.takeWhile (fun c => c ≠ '/')).reverse ++ s := by
  unfold lastSeg
  rw [List.reverse_append]
  have h1 : (s.reverse ++ l.reverse).dropWhile (fun c => c = '/') =
      s.reverse ++ l.reverse := by
    cases hsr : s.reverse with
    | nil => exact absurd (by simpa using congrArg List.reverse hsr) hne
    | cons d r =>
      have hd : d ≠ '/' := hs d (by
        have : d ∈ s.reverse := by rw [hsr]; exact List.mem_cons_self _ _
        simpa using this)
      rw [List.cons_append, List.dropWhile_cons_of_neg (by simpa using hd)]
  rw [h1, List.takeWhile_append_of_pos
        (by intro a ha; simpa using hs a (by simpa using ha)),
      List.reverse_append, List.reverse_reverse]

theorem trimChars_eq_self (l : List Char)
    (hh : ∀ c ∈ l.head?, isWspChar c = false)
    (hl : ∀ c ∈ l.getLast?, isWspChar c = false) : trimChars l = l := by
  unfold trimChars
  have h1 : l.dropWhile isWspChar = l := by
    cases l with
    | nil => rfl
    | cons a t =>
      rw [List.dropWhile_cons_of_neg (by simp [hh a (by simp)])]
  rw [h1]
  have h2 : l.reverse.dropWhile isWspChar = l.reverse := by
    cases hr : l.reverse with
    | nil => rfl
    | cons a t =>
      have ha : a ∈ l.getLast? := by
        rw [← List.head?_reverse, hr]; simp
      rw [List.dropWhile_cons_of_neg (by simp [hl a ha])]
  rw [h2, List.reverse_reverse]

theorem takeWhile_all {p : α → Bool} (l : List α) (h : ∀ x ∈ l, p x = true) :
    l.takeWhile p = l := by
  induction l with
  | nil => rfl
  | cons a t ih =>
    rw [List.takeWhile_cons_of_pos (h a (by simp)), ih (fun x hx => h x (by simp [hx]))]

theorem dropWhile_all {p : α → Bool} (l : List α) (h : ∀ x ∈ l, p x = true) :
    l.dropWhile p = [] := by
  induction l with
  | nil => rfl
  | cons a t ih =>
    rw [List.dropWhile_cons_of_pos (h a (by simp)), ih (fun x hx => h x (by simp [hx]))]

/-- `new URL` on a well-formed `https://www.sec.gov/...` URL whose path part
contains no query/fragment delimiter. -/
theorem parseUrlChars_secgov (tail : List Char)
    (hq : ∀ ch ∈ tail, ch ≠ '?') (hh : ∀ ch ∈ tail, ch ≠ '#') :
    parseUrlChars ("https://www.sec.gov/".toList ++ tail) =
      some ⟨"https", true, "www.sec.gov", String.mk ('/' :: tail), none, none⟩ := by
  have hsplit : "https://www.sec.gov/".toList ++ tail =
      "https".toList ++ ':' :: ("//www.sec.gov/".toList ++ tail) := by
    have h0 : ("https://www.sec.gov/".toList : List Char) =
        "https".toList ++ ':' :: "//www.sec.gov/".toList := by decide
    rw [h0, List.append_assoc, List.cons_append]
  have hsch : ("https://www.sec.gov/".toList ++ tail).takeWhile (fun c => c ≠ ':') =
      "https".toList := by
    rw [hsplit]; exact takeWhile_stop _ _ (by decide) (by decide)
  have hdropc : ("https://www.sec.gov/".toList ++ tail).dropWhile (fun c => c ≠ ':') =
      ':' :: ("//www.sec.gov/".toList ++ tail) := by
    rw [hsplit]; exact dropWhile_stop _ _ (by decide) (by decide)
  have hconcA : ∀ x ∈ ("//www.sec.gov/".toList : List Char), x ≠ '#' := by decide
  have hnofrag : ("//www.sec.gov/".toList ++ tail).takeWhile (fun c => c ≠ '#') =
      '/' :: '/' :: ("www.sec.gov/".toList ++ tail) := by
    have h1 : ("//www.sec.gov/".toList ++ tail).takeWhile (fun c => c ≠ '#') =
        "//www.sec.gov/".toList ++ tail := by
      refine takeWhile_all _ ?_
      intro x hx
      rcases List.mem_append.mp hx with hx | hx
      · simpa using hconcA x hx
      · simpa using hh x hx
    rw [h1]
    have h2 : ("//www.sec.gov/".toList : List Char) =
        '/' :: '/' :: "www.sec.gov/".toList := by decide
    rw [h2, List.cons_append, List.cons_append]
  have hfrag : ("//www.sec.gov/".toList ++ tail).dropWhile (fun c => c ≠ '#') = [] := by
    refine dropWhile_all _ ?_
    intro x hx
    rcases List.mem_append.mp hx with hx | hx
    · simpa using hconcA x hx
    · simpa using hh x hx
  have htail : ("www.sec.gov/".toList ++ tail : List Char) =
      "www.sec.gov".toList ++ '/' :: tail := by
    have h3 : ("www.sec.gov/".toList : List Char) = "www.sec.gov".toList ++ ['/'] := by
      decide
    rw [h3, List.append_assoc, List.cons_append, List.nil_append]
  have hauth : ("www.sec.gov/".toList ++ tail).takeWhile (fun c => c ≠ '/' && c ≠ '?') =
      "www.sec.gov".toList := by
    rw [htail]; exact takeWhile_stop _ _ (by decide) (by decide)
  have hafter : ("www.sec.gov/".toList ++ tail).dropWhile (fun c => c ≠ '/' && c ≠ '?') =
      '/' :: tail := by
    rw [htail]; exact dropWhile_stop _ _ (by decide) (by decide)
  have hpath : ('/' :: tail).takeWhile (fun c => c ≠ '?') = '/' :: tail := by
    refine takeWhile_all _ ?_
    intro x hx
    rcases List.mem_cons.mp hx with rfl | hx
    · decide
    · simpa using hq x hx
  have hquery : ('/' :: tail).dropWhile (fun c => c ≠ '?') = [] := by
    refine dropWhile_all _ ?_
    intro x hx
    rcases List.mem_cons.mp hx with rfl | hx
    · decide
    · simpa using hq x hx
  simp only [parseUrlChars, hsch, hdropc, hnofrag, hfrag, hauth, hafter, hpath, hquery]
  norm_num
  exact ⟨by decide, by decide, ⟨by decide, by decide, by decide, by decide⟩, by decide,
         by decide, by decide, by simp⟩

theorem mk_toList_eq (s : String) : String.mk s.toList = s := by
  cases s; rfl

theorem toList_mk_eq (l : List Char) : (String.mk l).toList = l := rfl

/-- `isUsableSecFilingUrl` evaluated through a known parse of a non-`/ix`
archive-document URL. -/
theorem isUsable_of_parsed (url : String) (u : JsUrl)
    (htrim : trimChars url.toList = url.toList)
    (hne : url.toList ≠ [])
    (hparse : parseUrlChars url.toList = some u)
    (hhost : secGovHostTest u.host = true)
    (hpath1 : u.path ≠ "/") (hpath2 : u.path ≠ "")
    (hix : String.mk (lowerChars u.path.toList) ≠ "/ix")
    (harch : hasSub ("/archives/".toList) (lowerChars u.path.toList) = true)
    (hdot : (lastSeg (lowerChars u.path.toList)).contains '.' = true)
    (hn1 : lastSeg (lowerChars u.path.toList) ≠ "index.html".toList)
    (hn2 : lastSeg (lowerChars u.path.toList) ≠ "index.htm".toList) :
    isUsableSecFilingUrl url = true := by
  have hmk : String.mk (trimChars url.toList) = url := by
    rw [htrim]; exact mk_toList_eq url
  have hne' : url ≠ "" := by
    intro h0
    exact hne (by rw [h0]; rfl)
  simp only [String.toList] at hix harch hdot hn1 hn2
  have hdotm : '.' ∈ lastSeg (lowerChars u.path.data) := List.elem_iff.mp hdot
  simp only [isUsableSecFilingUrl, hmk, parseUrl, hparse]
  simp [hne', hhost, hpath1, hpath2, hix, harch, hdotm, hn1, hn2, String.toList]

/-- `toIxViewerUrl` evaluated through a known parse of a non-`/ix`
archive-document URL. -/
theorem toIx_of_parsed (url : String) (u : JsUrl)
    (htrim : trimChars url.toList = url.toList)
    (hne : url.toList ≠ [])
    (hparse : parseUrlChars url.toList = some u)
    (hhost : secGovHostTest u.host = true)
    (hix : String.mk (lowerChars u.path.toList) ≠ "/ix")
    (harch : hasSub ("/archives/".toList) (lowerChars u.path.toList) = true)
    (hdot : (lastSeg (lowerChars u.path.toList)).contains '.' = true)
    (hn1 : lastSeg (lowerChars u.path.toList) ≠ "index.html".toList)
    (hn2 : lastSeg (lowerChars u.path.toList) ≠ "index.htm".toList) :
    toIxViewerUrl url = "https://www.sec.gov/ix?doc=" ++ u.path := by
  have hmk : String.mk (trimChars url.toList) = url := by
    rw [htrim]; exact mk_toList_eq url
  have hne' : url ≠ "" := by
    intro h0
    exact hne (by rw [h0]; rfl)
  simp only [String.toList] at hix harch hdot hn1 hn2
  have hdotm : '.' ∈ lastSeg (lowerChars u.path.data) := List.elem_iff.mp hdot
  simp only [toIxViewerUrl, hmk, parseUrl, hparse]
  simp [hne', hhost, hix, harch, hdotm, hn1, hn2, String.toList]

/-- The path tail of a synthesized archive index URL. -/
def edgarTail (mid : List Char) : List Char :=
  "Archives/edgar/data/".toList ++ (mid ++ "-index.html".toList)

/-- The full character list of a synthesized archive index URL. -/
def edgarUrlList (mid : List Char) : List Char :=
  "https://www.sec.gov/".toList ++ edgarTail mid

theorem edgarUrlList_eq (mid : List Char) :
    edgarUrlList mid = "https://www.sec.gov/Archives/edgar/data/".toList
      ++ (mid ++ "-index.html".toList) := by
  unfold edgarUrlList edgarTail
  rw [← List.append_assoc]
  congr 1

theorem edgarTail_no_q (mid : List Char) (hq : ∀ ch ∈ mid, ch ≠ '?') :
    ∀ ch ∈ edgarTail mid, ch ≠ '?' := by
  intro x hx
  unfold edgarTail at hx
  rcases List.mem_append.mp hx with hx | hx
  · exact (show ∀ c ∈ ("Archives/edgar/data/".toList : List Char), c ≠ '?' from by decide) x hx
  · rcases List.mem_append.mp hx with hx | hx
    · exact hq x hx
    · exact (show ∀ c ∈ ("-index.html".toList : List Char), c ≠ '?' from by decide) x hx

theorem edgarTail_no_h (mid : List Char) (hh : ∀ ch ∈ mid, ch ≠ '#') :
    ∀ ch ∈ edgarTail mid, ch ≠ '#' := by
  intro x hx
  unfold edgarTail at hx
  rcases List.mem_append.mp hx with hx | hx
  · exact (show ∀ c ∈ ("Archives/edgar/data/".toList : List Char), c ≠ '#' from by decide) x hx
  · rcases List.mem_append.mp hx with hx | hx
    · exact hh x hx
    · exact (show ∀ c ∈ ("-index.html".toList : List Char), c ≠ '#' from by decide) x hx

theorem parse_edgarUrl (mid : List Char)
    (hq : ∀ ch ∈ mid, ch ≠ '?') (hh : ∀ ch ∈ mid, ch ≠ '#') :
    parseUrlChars (edgarUrlList mid) =
      some ⟨"https", true, "www.sec.gov", String.mk ('/' :: edgarTail mid), none, none⟩ :=
  parseUrlChars_secgov _ (edgarTail_no_q mid hq) (edgarTail_no_h mid hh)

theorem head_edgarUrl (mid : List Char) : (edgarUrlList mid).head? = some 'h' := by
  unfold edgarUrlList
  rw [List.head?_append,
      show (("https://www.sec.gov/".toList : List Char)).head? = some 'h' from by decide]
  rfl

theorem last_edgarUrl (mid : List Char) : (edgarUrlList mid).getLast? = some 'l' := by
  unfold edgarUrlList edgarTail
  rw [List.getLast?_append, List.getLast?_append, List.getLast?_append,
      show (("-index.html".toList : List Char)).getLast? = some 'l' from by decide]
  rfl

theorem trim_edgarUrl (mid : List Char) :
    trimChars (edgarUrlList mid) = edgarUrlList mid := by
  refine trimChars_eq_self _ (fun c hc => ?_) (fun c hc => ?_)
  · rw [head_edgarUrl] at hc
    simp only [Option.mem_def, Option.some.injEq] at hc
    subst hc; decide
  · rw [last_edgarUrl] at hc
    simp only [Option.mem_def, Option.some.injEq] at hc
    subst hc; decide

theorem edgarUrl_ne_nil (mid : List Char) : edgarUrlList mid ≠ [] := by
  intro h0
  have := congrArg List.head? h0
  rw [head_edgarUrl] at this
  simp at this

theorem edgarTail_head (mid : List Char) : (edgarTail mid).head? = some 'A' := by
  unfold edgarTail
  rw [List.head?_append,
      show (("Archives/edgar/data/".toList : List Char)).head? = some 'A' from by decide]
  rfl

theorem edgarTail_cons (mid : List Char) :
    edgarTail mid = 'A' :: ("rchives/edgar/data/".toList ++ (mid ++ "-index.html".toList)) := by
  unfold edgarTail
  rw [show ("Archives/edgar/data/".toList : List Char) =
        'A' :: "rchives/edgar/data/".toList from by decide,
      List.cons_append]

theorem edgarPath_split (mid : List Char) :
    ('/' :: edgarTail mid : List Char) =
      "/Archives/edgar/data/".toList ++ (mid ++ "-index.html".toList) := by
  unfold edgarTail
  rw [show ("/Archives/edgar/data/".toList : List Char) =
        '/' :: "Archives/edgar/data/".toList from by decide, List.cons_append]

theorem edgarLower_split (mid : List Char) :
    lowerChars ('/' :: edgarTail mid) =
      ("/archives/edgar/data/".toList ++ lowerChars mid) ++ "-index.html".toList := by
  rw [edgarPath_split]
  unfold lowerChars
  rw [List.map_append, List.map_append,
      show List.map Char.toLower "/Archives/edgar/data/".toList =
        "/archives/edgar/data/".toList from by decide,
      show List.map Char.toLower "-index.html".toList =
        "-index.html".toList from by decide,
      List.append_assoc]

theorem edgarLower_ne_ix (mid : List Char) :
    String.mk (lowerChars ('/' :: edgarTail mid)) ≠ "/ix" := by
  intro hcontra
  have h2 : lowerChars ('/' :: edgarTail mid) = "/ix".toList :=
    congrArg String.toList hcontra
  rw [edgarLower_split] at h2
  rw [show ("/ix".toList : List Char) = ['/', 'i', 'x'] from by decide,
      show ("/archives/edgar/data/".toList : List Char) =
        '/' :: 'a' :: "rchives/edgar/data/".toList from by decide,
      List.cons_append, List.cons_append, List.cons_append, List.cons_append] at h2
  injection h2 with h3 h4
  injection h4 with h5 h6
  exact absurd h5 (by decide)

theorem edgarLower_arch (mid : List Char) :
    hasSub ("/archives/".toList) (lowerChars ('/' :: edgarTail mid)) = true := by
  apply hasSub_of_lead
  rw [edgarLower_split,
      show ("/archives/edgar/data/".toList : List Char) =
        "/archives/".toList ++ "edgar/data/".toList from by decide,
      List.append_assoc, List.append_assoc]
  exact leadsWith_append _ _

theorem edgarLower_lastSeg (mid : List Char) :
    lastSeg (lowerChars ('/' :: edgarTail mid)) =
      ((("/archives/edgar/data/".toList ++ lowerChars mid).reverse.takeWhile
          (fun c => c ≠ '/')).reverse) ++ "-index.html".toList := by
  rw [edgarLower_split]
  exact lastSeg_append _ _ (by decide) (by decide)

theorem edgarLastSeg_dot (mid : List Char) :
    (lastSeg (lowerChars ('/' :: edgarTail mid))).contains '.' = true := by
  rw [edgarLower_lastSeg]
  refine List.elem_eq_true_of_mem ?_
  exact List.mem_append.mpr (Or.inr (by decide))

theorem edgarLastSeg_ne (mid : List Char) :
    lastSeg (lowerChars ('/' :: edgarTail mid)) ≠ "index.html".toList ∧
    lastSeg (lowerChars ('/' :: edgarTail mid)) ≠ "index.htm".toList := by
  rw [edgarLower_lastSeg]
  constructor <;>
  · intro h0
    have hlen := congrArg List.length h0
    rw [List.length_append,
        show ("-index.html".toList : List Char).length = 11 from by decide] at hlen
    first
      | rw [show ("index.html".toList : List Char).length = 10 from by decide] at hlen
      | rw [show ("index.htm".toList : List Char).length = 9 from by decide] at hlen
    omega

theorem edgarPath_ne_root (mid : List Char) :
    String.mk ('/' :: edgarTail mid) ≠ "/" := by
  intro hcontra
  have h2 : ('/' :: edgarTail mid : List Char) = "/".toList :=
    congrArg String.toList hcontra
  rw [show ("/".toList : List Char) = ['/'] from by decide] at h2
  injection h2 with h3 h4
  have := congrArg List.head? h4
  rw [edgarTail_head] at this
  simp at this

theorem edgarPath_ne_empty (mid : List Char) :
    String.mk ('/' :: edgarTail mid) ≠ "" := by
  intro hcontra
  have h2 : ('/' :: edgarTail mid : List Char) = "".toList :=
    congrArg String.toList hcontra
  simp at h2

/-- The synthesized archive index URL always passes `isUsableSecFilingUrl`
when its middle part has no query/fragment delimiter. -/
theorem isUsable_edgarUrl (mid : List Char)
    (hq : ∀ ch ∈ mid, ch ≠ '?') (hh : ∀ ch ∈ mid, ch ≠ '#') :
    isUsableSecFilingUrl (String.mk (edgarUrlList mid)) = true := by
  refine isUsable_of_parsed _
    ⟨"https", true, "www.sec.gov", String.mk ('/' :: edgarTail mid), none, none⟩
    (trim_edgarUrl mid) (edgarUrl_ne_nil mid) (parse_edgarUrl mid hq hh)
    (show secGovHostTest "www.sec.gov" = true from by decide)
    (edgarPath_ne_root mid) (edgarPath_ne_empty mid)
    (edgarLower_ne_ix mid) (edgarLower_arch mid) (edgarLastSeg_dot mid)
    (edgarLastSeg_ne mid).1 (edgarLastSeg_ne mid).2

/-- `toIxViewerUrl` wraps the synthesized archive index URL into the inline
viewer. -/
theorem toIx_edgarUrl (mid : List Char)
    (hq : ∀ ch ∈ mid, ch ≠ '?') (hh : ∀ ch ∈ mid, ch ≠ '#') :
    toIxViewerUrl (String.mk (edgarUrlList mid)) =
      "https://www.sec.gov/ix?doc=" ++ String.mk ('/' :: edgarTail mid) := by
  refine toIx_of_parsed _
    ⟨"https", true, "www.sec.gov", String.mk ('/' :: edgarTail mid), none, none⟩
    (trim_edgarUrl mid) (edgarUrl_ne_nil mid) (parse_edgarUrl mid hq hh)
    (show secGovHostTest "www.sec.gov" = true from by decide)
    (edgarLower_ne_ix mid) (edgarLower_arch mid) (edgarLastSeg_dot mid)
    (edgarLastSeg_ne mid).1 (edgarLastSeg_ne mid).2

theorem decDigitChar_digit (m : Nat) (hm : m < 10) : (decDigitChar m).isDigit = true := by
  interval_cases m <;> decide

theorem natToDigitsAux_digits (fuel : Nat) :
    ∀ n, ∀ c ∈ natToDigitsAux fuel n, c.isDigit = true := by
  induction fuel with
  | zero => intro n c hc; simp [natToDigitsAux] at hc
  | succ f ih =>
    intro n c hc
    rw [natToDigitsAux] at hc
    by_cases h : n = 0
    · simp [h] at hc
    · rw [if_neg h] at hc
      rcases List.mem_append.mp hc with hc | hc
      · exact ih _ c hc
      · rw [List.mem_singleton] at hc
        subst hc
        exact decDigitChar_digit _ (Nat.mod_lt _ (by omega))

theorem normalizeAcc_digits (s : String) :
    ∀ c ∈ (normalizeAccessionDigits s).toList, c.isDigit = true := by
  unfold normalizeAccessionDigits
  intro c hc
  rw [toList_mk_eq] at hc
  exact (List.mem_filter.mp hc).2

theorem digit_ne_qh (c : Char) (h : c.isDigit = true) : c ≠ '?' ∧ c ≠ '#' := by
  constructor <;> intro h0 <;> rw [h0] at h <;> exact absurd h (by decide)

theorem natToDecimal_no_qh (m : Nat) :
    ∀ c ∈ (natToDecimal m).toList, c ≠ '?' ∧ c ≠ '#' := by
  intro c hc
  refine digit_ne_qh c ?_
  unfold natToDecimal at hc
  by_cases h : m = 0
  · rw [if_pos h] at hc
    rw [show ("0" : String).toList = ['0'] from rfl, List.mem_singleton] at hc
    subst hc; decide
  · rw [if_neg h] at hc
    exact natToDigitsAux_digits _ _ c hc

theorem jsExpRender_no_qh (s n : Nat) :
    ∀ c ∈ (jsExpRender s n).toList, c ≠ '?' ∧ c ≠ '#' := by
  unfold jsExpRender
  cases hds : natToDigitsAux s s with
  | nil =>
    intro c hc
    exact (show ∀ c ∈ ("0" : String).toList, c ≠ '?' ∧ c ≠ '#' from by decide) c hc
  | cons d rest =>
    have hdig : ∀ c ∈ d :: rest, c.isDigit = true := by
      rw [← hds]; exact natToDigitsAux_digits s s
    cases rest with
    | nil =>
      intro c hc
      simp only [String.toList, String.data_append] at hc
      rcases List.mem_append.mp hc with hc | hc
      · rcases List.mem_append.mp hc with hc | hc
        · rw [List.mem_singleton] at hc
          exact digit_ne_qh c (hdig c (by simp [hc]))
        · exact (show ∀ c ∈ ("e+" : String).data, c ≠ '?' ∧ c ≠ '#' from by decide) c hc
      · exact natToDecimal_no_qh _ c hc
    | cons d2 rest2 =>
      intro c hc
      simp only [String.toList, String.data_append] at hc
      rcases List.mem_append.mp hc with hc | hc
      · rcases List.mem_append.mp hc with hc | hc
        · rcases List.mem_append.mp hc with hc | hc
          · rcases List.mem_append.mp hc with hc | hc
            · rw [List.mem_singleton] at hc
              exact digit_ne_qh c (hdig c (by simp [hc]))
            · exact (show ∀ c ∈ ("." : String).data, c ≠ '?' ∧ c ≠ '#' from by decide) c hc
          · exact digit_ne_qh c (hdig c (List.mem_cons_of_mem d hc))
        · exact (show ∀ c ∈ ("e+" : String).data, c ≠ '?' ∧ c ≠ '#' from by decide) c hc
      · exact natToDecimal_no_qh _ c hc

theorem jsDoubleToString_no_qh (r : Nat) :
    ∀ c ∈ (jsDoubleToString r).toList, c ≠ '?' ∧ c ≠ '#' := by
  simp only [jsDoubleToString]
  by_cases h1 : twoPow1024 ≤ r
  · rw [if_pos h1]
    intro c hc
    exact (show ∀ c ∈ ("Infinity" : String).toList, c ≠ '?' ∧ c ≠ '#' from by decide) c hc
  · rw [if_neg h1]
    by_cases h2 : r ≤ twoPow53
    · rw [if_pos h2]
      exact natToDecimal_no_qh r
    · rw [if_neg h2]
      cases hs : shortestSigAux r (natToDigitsAux r r).length
          (natToDigitsAux r r).length 1 with
      | none => exact natToDecimal_no_qh r
      | some pr =>
        obtain ⟨s0, e10⟩ := pr
        simp only []
        by_cases h3 : e10 + (natToDigitsAux s0 s0).length ≤ 21
        · rw [if_pos h3]
          exact natToDecimal_no_qh _
        · rw [if_neg h3]
          exact jsExpRender_no_qh _ _

theorem normalizeCik_no_qh (s : String) :
    ∀ c ∈ (normalizeCik s).toList, c ≠ '?' ∧ c ≠ '#' := by
  unfold normalizeCik
  simp only [String.toList]
  by_cases h : digitsOf s.data = []
  · rw [if_pos h]
    intro c hc
    rw [show ("" : String).data = ([] : List Char) from rfl] at hc
    simp at hc
  · rw [if_neg h]
    exact jsDoubleToString_no_qh _

/-- The middle part of the synthesized URL built from normalized cik and
accession digits plus the raw trimmed accession. -/
def edgarMid (cik acc : String) : List Char :=
  (normalizeCik cik).toList ++ '/' ::
    ((normalizeAccessionDigits acc).toList ++ '/' :: trimChars acc.toList)

theorem edgarMid_no_qh (cik acc : String)
    (hacc : ∀ ch ∈ trimChars acc.toList, ch ≠ '?' ∧ ch ≠ '#') :
    ∀ ch ∈ edgarMid cik acc, ch ≠ '?' ∧ ch ≠ '#' := by
  intro x hx
  unfold edgarMid at hx
  rcases List.mem_append.mp hx with hx | hx
  · exact normalizeCik_no_qh cik x hx
  · rcases List.mem_cons.mp hx with rfl | hx
    · exact ⟨by decide, by decide⟩
    · rcases List.mem_append.mp hx with hx | hx
      · exact digit_ne_qh x (normalizeAcc_digits acc x hx)
      · rcases List.mem_cons.mp hx with rfl | hx
        · exact ⟨by decide, by decide⟩
        · exact hacc x hx

theorem buildEdgar_eq_mk (cik acc : String)
    (h1 : normalizeCik cik ≠ "") (h2 : normalizeAccessionDigits acc ≠ "")
    (h3 : String.mk (trimChars acc.toList) ≠ "") :
    buildEdgarIndexUrl cik acc = String.mk (edgarUrlList (edgarMid cik acc)) := by
  have h3' : String.mk (trimChars acc.data) ≠ "" := h3
  unfold buildEdgarIndexUrl
  rw [if_neg (by simp [h1, h2, h3, h3'])]
  apply String.ext
  simp [String.data_append, edgarUrlList_eq, edgarMid, String.toList, List.append_assoc]

theorem jsOrS_empty_left (b : String) : jsOrS "" b = b := rfl

theorem jsOrS_ne_empty (a b : String) (hb : b ≠ "") : jsOrS a b ≠ "" := by
  unfold jsOrS
  by_cases h : a = ""
  · rw [if_pos h]; exact hb
  · rw [if_neg h]; exact h

theorem jsOrS_of_ne (a b : String) (ha : a ≠ "") : jsOrS a b = a := if_neg ha

theorem append_left_ne_empty (a b : String) (ha : a ≠ "") : a ++ b ≠ "" := by
  intro h0
  have h1 : (a ++ b).data = ("" : String).data := congrArg String.data h0
  rw [String.data_append, show ("" : String).data = ([] : List Char) from rfl,
      List.append_eq_nil] at h1
  exact ha (String.ext h1.1)

/-- C9: whenever `buildEdgarIndexUrl` returns a non-empty string **and** the
trimmed raw accession contains no `?` or `#`, that string satisfies
`isUsableSecFilingUrl`.  (The unrestricted claim is refuted by
`c9_counterexample`.) -/
theorem c9_fallback_usable (cik acc : String)
    (hacc : ∀ ch ∈ trimChars acc.toList, ch ≠ '?' ∧ ch ≠ '#')
    (hne : buildEdgarIndexUrl cik acc ≠ "") :
    isUsableSecFilingUrl (buildEdgarIndexUrl cik acc) = true := by
  by_cases h1 : normalizeCik cik = ""
  · exact absurd (by simp [buildEdgarIndexUrl, h1]) hne
  by_cases h2 : normalizeAccessionDigits acc = ""
  · exact absurd (by simp [buildEdgarIndexUrl, h2]) hne
  by_cases h3 : String.mk (trimChars acc.toList) = ""
  · exact absurd (by
      simp [buildEdgarIndexUrl, show String.mk (trimChars acc.data) = "" from h3]) hne
  rw [buildEdgar_eq_mk cik acc h1 h2 h3]
  exact isUsable_edgarUrl _ (fun ch hch => (edgarMid_no_qh cik acc hacc ch hch).1)
    (fun ch hch => (edgarMid_no_qh cik acc hacc ch hch).2)

/-- C9 witness: the usability of the synthesized URL at the spec's sample
identifiers. -/
theorem c9_fallback_usable_witness :
    isUsableSecFilingUrl (buildEdgarIndexUrl "0001234567" "0001234567-24-000123") = true :=
  c9_fallback_usable "0001234567" "0001234567-24-000123" (by decide) (by decide)

/-- C9 counterexample: with a `?` in the raw accession, the synthesized URL
is non-empty but fails `isUsableSecFilingUrl`, because the query delimiter
truncates the parsed pathname. -/
theorem c9_counterexample :
    buildEdgarIndexUrl "5" "1?x" =
      "https://www.sec.gov/Archives/edgar/data/5/1/1?x-index.html" ∧
    buildEdgarIndexUrl "5" "1?x" ≠ "" ∧
    isUsableSecFilingUrl (buildEdgarIndexUrl "5" "1?x") = false := by decide

theorem canonicalizeSecUrl_empty (a : FilingAlert) : canonicalizeSecUrl "" a = "" := by
  unfold canonicalizeSecUrl
  rw [show String.mk (trimChars ("" : String).toList) = "" from by decide]
  simp

/-- C2 counterexample: with all three candidate URLs empty and the claim's
sample identifiers, the primary display link is **not** the synthesized
index URL itself; the code wraps it into the `/ix` inline viewer first. -/
theorem c2_counterexample :
    (resolveLinks { cik := "0001234567",
                    accession_number := "0001234567-24-000123" }).secLink ≠
      "https://www.sec.gov/Archives/edgar/data/1234567/000123456724000123/0001234567-24-000123-index.html" ∧
    buildEdgarIndexUrl "0001234567" "0001234567-24-000123" =
      "https://www.sec.gov/Archives/edgar/data/1234567/000123456724000123/0001234567-24-000123-index.html" ∧
    (resolveLinks { cik := "0001234567",
                    accession_number := "0001234567-24-000123" }).secLink =
      "https://www.sec.gov/ix?doc=/Archives/edgar/data/1234567/000123456724000123/0001234567-24-000123-index.html" := by
  decide

/-- C2 (amended): with all three candidates unusable and valid identifiers
(raw accession free of `?`/`#`), `resolveLinks` returns as primary display
link the **inline-viewer form** of the synthesized fallback index URL; with
everything empty it degrades to the sentinel `"#"`. -/
theorem c2_fallback_viewer :
    (∀ alert : FilingAlert,
      isUsableSecFilingUrl (canonicalizeSecUrl alert.primary_document_url alert) = false →
      isUsableSecFilingUrl (canonicalizeSecUrl alert.sec_filing_url alert) = false →
      isUsableSecFilingUrl (canonicalizeSecUrl alert.sec_index_url alert) = false →
      (∀ ch ∈ trimChars alert.accession_number.toList, ch ≠ '?' ∧ ch ≠ '#') →
      buildEdgarIndexUrl alert.cik alert.accession_number ≠ "" →
      (resolveLinks alert).secLink =
        "https://www.sec.gov/ix?doc=/Archives/edgar/data/" ++ normalizeCik alert.cik
          ++ "/" ++ normalizeAccessionDigits alert.accession_number ++ "/"
          ++ String.mk (trimChars alert.accession_number.toList) ++ "-index.html") ∧
    (∀ alert : FilingAlert,
      alert.primary_document_url = "" → alert.sec_filing_url = "" →
      alert.sec_index_url = "" → alert.cik = "" → alert.accession_number = "" →
      (resolveLinks alert).secLink = "#") := by
  constructor
  · intro alert hc1 hc2 hc3 hacc hne
    by_cases h1 : normalizeCik alert.cik = ""
    · exact absurd (by simp [buildEdgarIndexUrl, h1]) hne
    by_cases h2 : normalizeAccessionDigits alert.accession_number = ""
    · exact absurd (by simp [buildEdgarIndexUrl, h2]) hne
    by_cases h3 : String.mk (trimChars alert.accession_number.toList) = ""
    · exact absurd (by simp [buildEdgarIndexUrl,
        show String.mk (trimChars alert.accession_number.data) = "" from h3]) hne
    have hfind : ([canonicalizeSecUrl alert.primary_document_url alert,
                   canonicalizeSecUrl alert.sec_filing_url alert,
                   canonicalizeSecUrl alert.sec_index_url alert].find?
                    (fun item => isUsableSecFilingUrl item)) = none := by
      rw [List.find?_cons_of_neg _ (by simp [hc1]),
          List.find?_cons_of_neg _ (by simp [hc2]),
          List.find?_cons_of_neg _ (by simp [hc3]), List.find?_nil]
    have hmid1 := fun ch hch =>
      (edgarMid_no_qh alert.cik alert.accession_number hacc ch hch).1
    have hmid2 := fun ch hch =>
      (edgarMid_no_qh alert.cik alert.accession_number hacc ch hch).2
    have hbe := buildEdgar_eq_mk alert.cik alert.accession_number h1 h2 h3
    have hviewer := toIx_edgarUrl (edgarMid alert.cik alert.accession_number) hmid1 hmid2
    simp only [resolveLinks, hfind, Option.getD_none, jsOrS_empty_left]
    rw [jsOrS_of_ne _ _ hne, hbe, hviewer,
        jsOrS_of_ne _ _ (append_left_ne_empty _ _ (by decide))]
    apply String.ext
    simp [String.data_append, edgarTail, edgarMid, String.toList, List.append_assoc]
  · intro alert h1 h2 h3 h4 h5
    simp [resolveLinks, h1, h2, h3, h4, h5, canonicalizeSecUrl_empty, jsOrS,
      show buildEdgarIndexUrl "" "" = "" from by decide,
      show toIxViewerUrl "#" = "" from by decide,
      show isUsableSecFilingUrl "" = false from by decide,
      show ("#" : String) ≠ "" from by decide]

/-- C2 witness: both branches of the amended claim at the claim's sample
record and at the all-empty record. -/
theorem c2_fallback_viewer_witness :
    (resolveLinks { cik := "0001234567",
                    accession_number := "0001234567-24-000123" }).secLink =
      "https://www.sec.gov/ix?doc=/Archives/edgar/data/" ++ normalizeCik "0001234567"
        ++ "/" ++ normalizeAccessionDigits "0001234567-24-000123" ++ "/"
        ++ String.mk (trimChars ("0001234567-24-000123" : String).toList)
        ++ "-index.html" ∧
    (resolveLinks {}).secLink = "#" :=
  ⟨c2_fallback_viewer.1 _ (by decide) (by decide) (by decide) (by decide) (by decide),
   c2_fallback_viewer.2 {} rfl rfl rfl rfl rfl⟩

theorem ite_and_ne (P Q : String)
    (h : (if P ≠ "" && P ≠ Q then P else "") ≠ "") :
    (if P ≠ "" && P ≠ Q then P else "") ≠ Q := by
  by_cases hc : (P ≠ "" && P ≠ Q) = true
  · rw [if_pos hc] at h ⊢
    rw [Bool.and_eq_true] at hc
    exact of_decide_eq_true hc.2
  · rw [if_neg hc] at h
    exact absurd rfl h

/-- C7: the primary display link is never empty (sentinel fallback), and a
non-empty secondary display link always differs from the primary one. -/
theorem c7_links_distinct (alert : FilingAlert) :
    (resolveLinks alert).secLink ≠ "" ∧
    ((resolveLinks alert).primaryLink ≠ "" →
      (resolveLinks alert).primaryLink ≠ (resolveLinks alert).secLink) := by
  simp only [resolveLinks]
  refine ⟨jsOrS_ne_empty _ _ (jsOrS_ne_empty _ _ (by decide)), fun hp => ?_⟩
  exact ite_and_ne _ _ hp

/-- C7 witness: a record with a usable primary document URL has a non-empty,
distinct secondary link. -/
theorem c7_links_distinct_witness :
    (resolveLinks { primary_document_url :=
        "https://www.sec.gov/Archives/a.htm" }).secLink ≠ "" ∧
    (resolveLinks { primary_document_url :=
        "https://www.sec.gov/Archives/a.htm" }).primaryLink ≠
      (resolveLinks { primary_document_url :=
        "https://www.sec.gov/Archives/a.htm" }).secLink :=
  ⟨(c7_links_distinct _).1, (c7_links_distinct _).2 (by decide)⟩

/-- C10: `resolveLinks` depends only on the three candidate URL fields and
the two identifier fields of its record. -/
theorem c10_resolveLinks_depends (a b : FilingAlert)
    (h1 : a.primary_document_url = b.primary_document_url)
    (h2 : a.sec_filing_url = b.sec_filing_url)
    (h3 : a.sec_index_url = b.sec_index_url)
    (h4 : a.cik = b.cik) (h5 : a.accession_number = b.accession_number) :
    resolveLinks a = resolveLinks b := by
  have hcanon : ∀ u, canonicalizeSecUrl u a = canonicalizeSecUrl u b := by
    intro u
    unfold canonicalizeSecUrl
    rw [h4, h5]
  simp only [resolveLinks, hcanon, h1, h2, h3, h4, h5]

/-- C10 witness: records agreeing on the five link-relevant fields but with
different synopses resolve identically. -/
theorem c10_resolveLinks_depends_witness :
    resolveLinks { synopsis := "crypto ETF", cik := "5",
                   sec_index_url := "https://www.sec.gov/Archives/x/index.html" } =
    resolveLinks { synopsis := "another text", form_type := "485APOS", cik := "5",
                   sec_index_url := "https://www.sec.gov/Archives/x/index.html" } :=
  c10_resolveLinks_depends _ _ rfl rfl rfl rfl rfl

/-- C1: evaluation of the code at the failing input.  The host check is the
bare suffix regex `/sec\.gov$/i`, so `evilsec.gov` — which is neither
`sec.gov` nor a subdomain of it — is accepted and its URL returned
unchanged; the claim's two cited examples do behave as stated
(`sec.gov.evil.example` rejected, the `www.sec.gov` document accepted
unchanged), but the claimed host restriction is violated. -/
theorem c1_host_check_code_eval :
    canonicalizeSecUrl "https://evilsec.gov/Archives/x.htm" {} =
      "https://evilsec.gov/Archives/x.htm" ∧
    canonicalizeSecUrl "https://evilsec.gov/Archives/x.htm" {} ≠ "" ∧
    ("evilsec.gov" : String) ≠ "sec.gov" ∧
    closesWith (".sec.gov".toList) ("evilsec.gov".toList) = false ∧
    canonicalizeSecUrl "https://sec.gov.evil.example/Archives/x.htm" {} = "" ∧
    canonicalizeSecUrl "https://www.sec.gov/Archives/edgar/data/1/2/x.htm" {} =
      "https://www.sec.gov/Archives/edgar/data/1/2/x.htm" := by decide

/-- C5: totality and collapse.  Both functions are total by construction in
this embedding; any input that does not parse to a `sec.gov`-suffixed host
(unparseable strings, the empty string, `javascript:` URLs, foreign hosts)
collapses to `""` / `false` rather than an error. -/
theorem c5_total_collapse (url : String) (alert : FilingAlert)
    (hmal : (parseUrl (String.mk (trimChars url.toList))).all
      (fun u => !secGovHostTest u.host) = true) :
    canonicalizeSecUrl url alert = "" ∧ isUsableSecFilingUrl url = false := by
  constructor
  · simp only [canonicalizeSecUrl]
    by_cases hv : String.mk (trimChars url.toList) = ""
    · rw [if_pos hv]
    · rw [if_neg hv]
      cases hp : parseUrl (String.mk (trimChars url.toList)) with
      | none => rfl
      | some u =>
        rw [hp] at hmal
        simp only [Option.all] at hmal
        simp [hmal]
  · simp only [isUsableSecFilingUrl]
    by_cases hv : String.mk (trimChars url.toList) = ""
    · rw [if_pos hv]
    · rw [if_neg hv]
      cases hp : parseUrl (String.mk (trimChars url.toList)) with
      | none => rfl
      | some u =>
        rw [hp] at hmal
        simp only [Option.all] at hmal
        simp [hmal]

/-- C5 witness: the claim's malformed-input examples all collapse. -/
theorem c5_total_collapse_witness :
    (canonicalizeSecUrl "javascript:alert(1)" {} = "" ∧
      isUsableSecFilingUrl "javascript:alert(1)" = false) ∧
    (canonicalizeSecUrl "" {} = "" ∧ isUsableSecFilingUrl "" = false) ∧
    (canonicalizeSecUrl "this is not a url" {} = "" ∧
      isUsableSecFilingUrl "this is not a url" = false) :=
  ⟨c5_total_collapse _ {} (by decide), c5_total_collapse _ {} (by decide),
   c5_total_collapse _ {} (by decide)⟩

theorem isDigit_bounds (c : Char) (h : c.isDigit = true) :
    48 ≤ c.toNat ∧ c.toNat ≤ 57 := by
  simp [Char.isDigit] at h
  exact h

theorem decDigitChar_digitVal (c : Char) (h : c.isDigit = true) :
    decDigitChar (digitVal c) = c := by
  unfold decDigitChar digitVal
  rw [Nat.add_sub_cancel' (isDigit_bounds c h).1]
  exact Char.ofNat_toNat c

theorem digitVal_le (c : Char) (h : c.isDigit = true) : digitVal c ≤ 9 := by
  have := (isDigit_bounds c h).2
  unfold digitVal
  omega

theorem digitVal_pos (c : Char) (h : c.isDigit = true) (h0 : c ≠ '0') :
    1 ≤ digitVal c := by
  have hb := isDigit_bounds c h
  have hne : c.toNat ≠ 48 := by
    intro he
    have h2 := Char.ofNat_toNat c
    rw [he] at h2
    exact h0 (by rw [← h2])
  unfold digitVal
  omega

theorem digitsToNat_foldl_ge (t : List Char) :
    ∀ n : Nat, n ≤ t.foldl (fun m c => m * 10 + digitVal c) n := by
  induction t with
  | nil => intro n; exact Nat.le_refl n
  | cons c t ih =>
    intro n
    rw [List.foldl_cons]
    exact le_trans (by omega) (ih (n * 10 + digitVal c))

theorem digitsToNat_pos (c : Char) (t : List Char) (hc : c.isDigit = true)
    (h0 : c ≠ '0') : 1 ≤ digitsToNat (c :: t) := by
  unfold digitsToNat
  rw [List.foldl_cons]
  have h1 : 1 ≤ 0 * 10 + digitVal c := by
    have := digitVal_pos c hc h0
    omega
  exact le_trans h1 (digitsToNat_foldl_ge t _)

theorem digitsToNat_append_last (m : List Char) (c : Char) :
    digitsToNat (m ++ [c]) = 10 * digitsToNat m + digitVal c := by
  unfold digitsToNat
  rw [List.foldl_append, List.foldl_cons, List.foldl_nil, Nat.mul_comm]

theorem natToDigitsAux_fuel (n : Nat) : ∀ f g, n ≤ f → n ≤ g →
    natToDigitsAux f n = natToDigitsAux g n := by
  induction n using Nat.strong_induction_on with
  | _ n ih =>
    intro f g hf hg
    by_cases h0 : n = 0
    · subst h0
      cases f <;> cases g <;> simp [natToDigitsAux]
    · obtain ⟨f', rfl⟩ : ∃ f', f = f' + 1 := ⟨f - 1, by omega⟩
      obtain ⟨g', rfl⟩ : ∃ g', g = g' + 1 := ⟨g - 1, by omega⟩
      simp only [natToDigitsAux]
      rw [if_neg h0, if_neg h0]
      have hlt : n / 10 < n := Nat.div_lt_self (by omega) (by omega)
      rw [ih (n / 10) hlt f' (n / 10) (by omega) (Nat.le_refl _),
          ih (n / 10) hlt g' (n / 10) (by omega) (Nat.le_refl _)]

theorem natToDigitsAux_step (f n : Nat) (h1 : 1 ≤ n) (hf : n ≤ f) :
    natToDigitsAux f n =
      natToDigitsAux (n / 10) (n / 10) ++ [decDigitChar (n % 10)] := by
  obtain ⟨f', rfl⟩ : ∃ f', f = f' + 1 := ⟨f - 1, by omega⟩
  simp only [natToDigitsAux]
  rw [if_neg (by omega)]
  have hlt : n / 10 < n := Nat.div_lt_self (by omega) (by omega)
  rw [natToDigitsAux_fuel (n / 10) f' (n / 10) (by omega) (Nat.le_refl _)]

theorem natToDecimal_digits : ∀ l : List Char, (∀ c ∈ l, c.isDigit = true) →
    l ≠ [] → (l.headD '0' ≠ '0' ∨ l = ['0']) →
    natToDecimal (digitsToNat l) = String.mk l := by
  intro l
  induction l using List.reverseRecOn with
  | nil => intro _ hne _; exact absurd rfl hne
  | append_singleton m c ih =>
    intro hdig _ hlead
    have hc : c.isDigit = true := hdig c (by simp)
    by_cases hm : m = []
    · subst hm
      simp only [List.nil_append] at hlead ⊢
      by_cases hc0 : c = '0'
      · subst hc0; decide
      · have hd1 : 1 ≤ digitVal c := digitVal_pos c hc hc0
        have hd9 : digitVal c ≤ 9 := digitVal_le c hc
        rw [show digitsToNat [c] = digitVal c from by simp [digitsToNat]]
        unfold natToDecimal
        rw [if_neg (by omega)]
        rw [natToDigitsAux_step _ _ hd1 (Nat.le_refl _),
            Nat.div_eq_of_lt (by omega), Nat.mod_eq_of_lt (by omega)]
        rw [show natToDigitsAux 0 0 = [] from rfl, List.nil_append,
            decDigitChar_digitVal c hc]
    · have hdigm : ∀ x ∈ m, x.isDigit = true := fun x hx => hdig x (by simp [hx])
      have hheadm : m.headD '0' ≠ '0' := by
        rcases hlead with h | h
        · obtain ⟨a, t, rfl⟩ : ∃ a t, m = a :: t := by
            cases m with
            | nil => exact absurd rfl hm
            | cons a t => exact ⟨a, t, rfl⟩
          simpa using h
        · exfalso
          have hlen := congrArg List.length h
          rw [List.length_append] at hlen
          have hm0 : m.length = 0 := by
            rw [show ([c] : List Char).length = 1 from rfl,
                show (['0'] : List Char).length = 1 from rfl] at hlen
            omega
          exact hm (List.eq_nil_of_length_eq_zero hm0)
      have hv1 : 1 ≤ digitsToNat m := by
        obtain ⟨a, t, rfl⟩ : ∃ a t, m = a :: t := by
          cases m with
          | nil => exact absurd rfl hm
          | cons a t => exact ⟨a, t, rfl⟩
        exact digitsToNat_pos a t (hdigm a (by simp)) (by simpa using hheadm)
      have ihm : natToDecimal (digitsToNat m) = String.mk m :=
        ih hdigm hm (Or.inl hheadm)
      have hauxm : natToDigitsAux (digitsToNat m) (digitsToNat m) = m := by
        unfold natToDecimal at ihm
        rw [if_neg (by omega)] at ihm
        exact congrArg String.data ihm
      rw [digitsToNat_append_last]
      have hd9 : digitVal c ≤ 9 := digitVal_le c hc
      have hn10 : 10 ≤ 10 * digitsToNat m + digitVal c := by omega
      unfold natToDecimal
      rw [if_neg (by omega)]
      rw [natToDigitsAux_step _ _ (by omega) (Nat.le_refl _)]
      rw [show (10 * digitsToNat m + digitVal c) / 10 = digitsToNat m from by
            rw [Nat.mul_add_div (by omega), Nat.div_eq_of_lt (by omega)]
            exact Nat.add_zero _]
      rw [show (10 * digitsToNat m + digitVal c) % 10 = digitVal c from by
            rw [Nat.mul_add_mod, Nat.mod_eq_of_lt (by omega)]]
      rw [hauxm, decDigitChar_digitVal c hc]

/-- A string already in canonical entity-id form: non-empty, pure digits, no
leading zero (except the single digit `"0"` itself). -/
def isCanonicalEntityId (x : String) : Bool :=
  !x.toList.isEmpty && x.toList.all Char.isDigit &&
    (x.toList.headD '0' ≠ '0' || x = "0")

theorem twoPow53_eq : twoPow53 = 2 ^ 53 := by decide

set_option maxRecDepth 4096 in
set_option exponentiation.threshold 2048 in
theorem twoPow1024_eq : twoPow1024 = 2 ^ 1024 := by decide

/-- C4 counterexample: at the canonical 16-digit input `2 ^ 53 + 1` the
program computes in IEEE-754 doubles: `parseInt` rounds `9007199254740993`
(a tie between the representable neighbours `2 ^ 53` and `2 ^ 53 + 2`) to
the even `9007199254740992`, so `normalizeCik` is not the identity there
and the unrestricted idempotence claim fails. -/
theorem c4_counterexample :
    isCanonicalEntityId "9007199254740993" = true ∧
    normalizeCik "9007199254740993" = "9007199254740992" ∧
    normalizeCik "9007199254740993" ≠ "9007199254740993" := by decide

/-- C4 (amended): `normalizeCik` is the identity — hence idempotent — on
canonical entity ids whose numeric value is below `2 ^ 53` (exactly
representable as a double; every real 10-digit CIK qualifies), and
`normalizeAccessionDigits`, which performs no numeric parse, is the
identity on every pure digit string.  From `2 ^ 53` up, double rounding
breaks the identity (`c4_counterexample`). -/
theorem c4_normalize_idempotent (x y : String)
    (hx : isCanonicalEntityId x = true)
    (hxs : digitsToNat x.toList < twoPow53)
    (hy : y.toList.all Char.isDigit = true) :
    normalizeCik x = x ∧ normalizeCik (normalizeCik x) = normalizeCik x ∧
      normalizeAccessionDigits y = y := by
  rw [isCanonicalEntityId, Bool.and_eq_true, Bool.and_eq_true, Bool.or_eq_true] at hx
  obtain ⟨⟨he, ha⟩, ho⟩ := hx
  have hne : x.toList ≠ [] := by
    intro h0
    rw [h0] at he
    simp at he
  have hdig : ∀ c ∈ x.toList, c.isDigit = true := List.all_eq_true.mp ha
  have hlead : x.toList.headD '0' ≠ '0' ∨ x.toList = ['0'] := by
    rcases ho with h | h
    · exact Or.inl (of_decide_eq_true h)
    · right
      rw [of_decide_eq_true h]
      rfl
  have hn53 : digitsToNat x.toList ≤ twoPow53 := le_of_lt hxs
  have hr : roundToDouble (digitsToNat x.toList) = digitsToNat x.toList := by
    unfold roundToDouble
    rw [if_pos hn53]
  have hAB : twoPow53 ≤ twoPow1024 := by decide
  have hinf : ¬ twoPow1024 ≤ digitsToNat x.toList := by omega
  have hjs : jsDoubleToString (digitsToNat x.toList) =
      natToDecimal (digitsToNat x.toList) := by
    unfold jsDoubleToString
    rw [if_neg hinf, if_pos hn53]
  have hmain : normalizeCik x = x := by
    unfold normalizeCik
    rw [show digitsOf x.toList = x.toList from List.filter_eq_self.mpr hdig]
    rw [if_neg hne, hr, hjs, natToDecimal_digits x.toList hdig hne hlead]
    exact mk_toList_eq x
  refine ⟨hmain, ?_, ?_⟩
  · rw [hmain]
    exact hmain
  · unfold normalizeAccessionDigits
    rw [show digitsOf y.toList = y.toList from
          List.filter_eq_self.mpr (List.all_eq_true.mp hy)]
    exact mk_toList_eq y

/-- C4 witness: the identities at concrete canonical inputs below `2 ^ 53`. -/
theorem c4_normalize_idempotent_witness :
    normalizeCik "1234567" = "1234567" ∧
    normalizeCik (normalizeCik "1234567") = normalizeCik "1234567" ∧
    normalizeAccessionDigits "000123456724000123" = "000123456724000123" :=
  c4_normalize_idempotent "1234567" "000123456724000123" (by decide) (by decide)
    (by decide)

/-! ## Helper lemmas: the stable sort -/

theorem mem_insertOrdered (cmp : α → α → Int) (a x : α) (l : List α) :
    x ∈ insertOrdered cmp a l ↔ x = a ∨ x ∈ l := by
  induction l with
  | nil => simp [insertOrdered]
  | cons b t ih =>
    unfold insertOrdered
    by_cases h : cmp a b ≤ 0
    · rw [if_pos h]
      simp [List.mem_cons]
    · rw [if_neg h]
      simp [List.mem_cons, ih]
      tauto

theorem perm_insertOrdered (cmp : α → α → Int) (a : α) (l : List α) :
    List.Perm (insertOrdered cmp a l) (a :: l) := by
  induction l with
  | nil => exact List.Perm.refl _
  | cons b t ih =>
    unfold insertOrdered
    by_cases h : cmp a b ≤ 0
    · rw [if_pos h]
    · rw [if_neg h]
      exact (ih.cons b).trans (List.Perm.swap a b t)

theorem perm_jsStableSort (cmp : α → α → Int) (l : List α) :
    List.Perm (jsStableSort cmp l) l := by
  induction l with
  | nil => exact List.Perm.refl _
  | cons a t ih =>
    show List.Perm (insertOrdered cmp a (jsStableSort cmp t)) (a :: t)
    exact (perm_insertOrdered cmp a _).trans (ih.cons a)

theorem pairwise_insertOrdered (cmp : α → α → Int) (a : α) :
    ∀ l : List α,
    (∀ x ∈ l, ¬ cmp a x ≤ 0 → cmp x a ≤ 0) →
    (∀ x ∈ l, ∀ y ∈ l, cmp a x ≤ 0 → cmp x y ≤ 0 → cmp a y ≤ 0) →
    l.Pairwise (fun x y => cmp x y ≤ 0) →
    (insertOrdered cmp a l).Pairwise (fun x y => cmp x y ≤ 0) := by
  intro l
  induction l with
  | nil => intro _ _ _; simp [insertOrdered]
  | cons b t ih =>
    intro htot htrans hl
    rw [List.pairwise_cons] at hl
    unfold insertOrdered
    by_cases h : cmp a b ≤ 0
    · rw [if_pos h, List.pairwise_cons]
      constructor
      · intro y hy
        rcases List.mem_cons.mp hy with rfl | hy
        · exact h
        · exact htrans b (by simp) y (by simp [hy]) h (hl.1 y hy)
      · rw [List.pairwise_cons]
        exact hl
    · rw [if_neg h, List.pairwise_cons]
      constructor
      · intro y hy
        rcases (mem_insertOrdered cmp a y t).mp hy with rfl | hy
        · exact htot b (by simp) h
        · exact hl.1 y hy
      · exact ih (fun x hx h2 => htot x (by simp [hx]) h2)
          (fun x hx y hy h1 h2 => htrans x (by simp [hx]) y (by simp [hy]) h1 h2)
          hl.2

theorem pairwise_jsStableSort (cmp : α → α → Int) :
    ∀ l : List α,
    (∀ x ∈ l, ∀ y ∈ l, ¬ cmp x y ≤ 0 → cmp y x ≤ 0) →
    (∀ x ∈ l, ∀ y ∈ l, ∀ z ∈ l, cmp x y ≤ 0 → cmp y z ≤ 0 → cmp x z ≤ 0) →
    (jsStableSort cmp l).Pairwise (fun x y => cmp x y ≤ 0) := by
  intro l
  induction l with
  | nil => intro _ _; simp [jsStableSort]
  | cons a t ih =>
    intro htot htrans
    show (insertOrdered cmp a (jsStableSort cmp t)).Pairwise _
    have hmem : ∀ x ∈ jsStableSort cmp t, x ∈ t :=
      fun x hx => (perm_jsStableSort cmp t).subset hx
    apply pairwise_insertOrdered
    · intro x hx h2
      exact htot a (by simp) x (by simp [hmem x hx]) h2
    · intro x hx y hy h1 h2
      exact htrans a (by simp) x (by simp [hmem x hx]) y (by simp [hmem y hy]) h1 h2
    · exact ih (fun x hx y hy => htot x (by simp [hx]) y (by simp [hy]))
        (fun x hx y hy z hz => htrans x (by simp [hx]) y (by simp [hy]) z (by simp [hz]))

theorem filter_insertOrdered_neg (cmp : α → α → Int) (p : α → Bool) (a : α)
    (l : List α) (hpa : p a = false) :
    (insertOrdered cmp a l).filter p = l.filter p := by
  induction l with
  | nil => simp [insertOrdered, hpa]
  | cons b t ih =>
    unfold insertOrdered
    by_cases h : cmp a b ≤ 0
    · rw [if_pos h]
      simp [List.filter_cons, hpa]
    · rw [if_neg h]
      simp [List.filter_cons, ih]

theorem filter_insertOrdered_pos (cmp : α → α → Int) (p : α → Bool) (a : α) :
    ∀ l : List α, p a = true →
    (∀ b ∈ l, p b = true → cmp a b ≤ 0) →
    (insertOrdered cmp a l).filter p = a :: l.filter p := by
  intro l
  induction l with
  | nil => intro hpa _; simp [insertOrdered, hpa]
  | cons b t ih =>
    intro hpa hstop
    unfold insertOrdered
    by_cases h : cmp a b ≤ 0
    · rw [if_pos h]
      simp [List.filter_cons, hpa]
    · rw [if_neg h]
      have hpb : p b = false := by
        cases hb : p b
        · rfl
        · exact absurd (hstop b (by simp) hb) h
      rw [List.filter_cons, List.filter_cons, if_neg (by simp [hpb]),
          if_neg (by simp [hpb])]
      exact ih hpa (fun b2 hb2 hp2 => hstop b2 (by simp [hb2]) hp2)

theorem filter_jsStableSort (cmp : α → α → Int) (p : α → Bool)
    (hp : ∀ x y, p x = true → p y = true → cmp x y = 0) :
    ∀ l : List α, (jsStableSort cmp l).filter p = l.filter p := by
  intro l
  induction l with
  | nil => rfl
  | cons a t ih =>
    show (insertOrdered cmp a (jsStableSort cmp t)).filter p = _
    by_cases hpa : p a = true
    · rw [filter_insertOrdered_pos cmp p a _ hpa
          (fun b _ hpb => le_of_eq (hp a b hpa hpb)),
          ih, List.filter_cons, if_pos hpa]
    · have hpa' : p a = false := by
        cases h : p a
        · rfl
        · exact absurd h hpa
      rw [filter_insertOrdered_neg cmp p a _ hpa', ih, List.filter_cons,
          if_neg (by simp [hpa'])]

theorem jsCmp_eq (dateParse : String → Option Int) (x y : FilingAlert)
    (kx ky : Int) (hx : recKey dateParse x = some kx)
    (hy : recKey dateParse y = some ky) : jsCmp dateParse x y = ky - kx := by
  unfold jsCmp
  rw [hx, hy]

/-- C3 counterexample: with an unparseable timestamp between two parseable
ones, every comparison the comparator makes evaluates to `0` (the engine
coerces the `NaN` of `bTime - aTime` to `+0`), so a conforming stable sort
leaves the list untouched — the record filed 2024-06-01 stays **behind** the
record filed 2024-01-01: the output is not descending, and the unparseable
record did not retain the relative position the claim asserts. -/
theorem c3_counterexample :
    sortRecords modelDateMs
      [{ created_at := "2024-01-01T00:00:00Z" }, { created_at := "not-a-date" },
       { created_at := "2024-06-01T00:00:00Z" }] =
      [{ created_at := "2024-01-01T00:00:00Z" }, { created_at := "not-a-date" },
       { created_at := "2024-06-01T00:00:00Z" }] ∧
    recKey modelDateMs { created_at := "2024-01-01T00:00:00Z" } =
      some 1704067200000 ∧
    recKey modelDateMs { created_at := "2024-06-01T00:00:00Z" } =
      some 1717200000000 ∧
    recKey modelDateMs { created_at := "not-a-date" } = none ∧
    (1704067200000 : Int) < 1717200000000 := by decide

/-- C3 (amended): the sort is a permutation; records with equal parseable
timestamps retain their relative input order (stability, stated as filter
invariance per timestamp value); and **when every record's best available
timestamp parses** (missing ones count as the epoch), the output is ordered
descending by timestamp.  With unparseable timestamps present, all
comparisons involving such a record are ties, so no global descending
guarantee exists (see `c3_counterexample`). -/
theorem c3_sort_descending_stable (dateParse : String → Option Int)
    (l : List FilingAlert) :
    ((∀ r ∈ l, (recKey dateParse r).isSome = true) →
      (sortRecords dateParse l).Pairwise (fun a b =>
        (recKey dateParse b).getD 0 ≤ (recKey dateParse a).getD 0)) ∧
    (∀ k : Int, (sortRecords dateParse l).filter
        (fun r => recKey dateParse r == some k) =
      l.filter (fun r => recKey dateParse r == some k)) ∧
    List.Perm (sortRecords dateParse l) l := by
  refine ⟨fun hall => ?_, fun k => ?_, perm_jsStableSort _ l⟩
  · have hpar : (jsStableSort (jsCmp dateParse) l).Pairwise
        (fun x y => jsCmp dateParse x y ≤ 0) := by
      apply pairwise_jsStableSort
      · intro x hx y hy h
        obtain ⟨kx, hkx⟩ := Option.isSome_iff_exists.mp (hall x hx)
        obtain ⟨ky, hky⟩ := Option.isSome_iff_exists.mp (hall y hy)
        rw [jsCmp_eq dateParse x y kx ky hkx hky] at h
        rw [jsCmp_eq dateParse y x ky kx hky hkx]
        omega
      · intro x hx y hy z hz h1 h2
        obtain ⟨kx, hkx⟩ := Option.isSome_iff_exists.mp (hall x hx)
        obtain ⟨ky, hky⟩ := Option.isSome_iff_exists.mp (hall y hy)
        obtain ⟨kz, hkz⟩ := Option.isSome_iff_exists.mp (hall z hz)
        rw [jsCmp_eq dateParse x y kx ky hkx hky] at h1
        rw [jsCmp_eq dateParse y z ky kz hky hkz] at h2
        rw [jsCmp_eq dateParse x z kx kz hkx hkz]
        omega
    refine hpar.imp_of_mem ?_
    intro a b ha hb hab
    have ha' := (perm_jsStableSort (jsCmp dateParse) l).subset ha
    have hb' := (perm_jsStableSort (jsCmp dateParse) l).subset hb
    obtain ⟨ka, hka⟩ := Option.isSome_iff_exists.mp (hall a ha')
    obtain ⟨kb, hkb⟩ := Option.isSome_iff_exists.mp (hall b hb')
    rw [jsCmp_eq dateParse a b ka kb hka hkb] at hab
    rw [hka, hkb]
    simp only [Option.getD_some]
    omega
  · apply filter_jsStableSort
    intro x y hx hy
    have hx' : recKey dateParse x = some k := by
      have h0 : decide (recKey dateParse x = some k) = true := by simpa using hx
      exact of_decide_eq_true h0
    have hy' : recKey dateParse y = some k := by
      have h0 : decide (recKey dateParse y = some k) = true := by simpa using hy
      exact of_decide_eq_true h0
    rw [jsCmp_eq dateParse x y k k hx' hy']
    omega

/-- C3 witness: the amended guarantees at a concrete all-parseable list. -/
theorem c3_sort_witness :
    (sortRecords modelDateMs
      [{ created_at := "2024-01-01T00:00:00Z" },
       { created_at := "2024-06-01T00:00:00Z" }]).Pairwise (fun a b =>
        (recKey modelDateMs b).getD 0 ≤ (recKey modelDateMs a).getD 0) :=
  (c3_sort_descending_stable modelDateMs _).1 (by decide)

/-- C6: a refresh tick either succeeds in both reads — and then replaces
both cache fields (and status line, metrics, visible list) together — or
fails, leaving the cached status, the cached record set, the metrics and
the rendered list exactly as they were and replacing only the
human-readable status line with the error message.  No partial cache
update is possible. -/
theorem c6_refresh_atomic (σ : Type) (dateParse : String → Option Int)
    (renderStatus : σ → String) (s : AppState σ)
    (statusRes : Except String σ)
    (alertsRes : Except String (List FilingAlert)) :
    (∃ st al, statusRes = Except.ok st ∧ alertsRes = Except.ok al ∧
      (refreshAll dateParse renderStatus s statusRes alertsRes).cachedStatus = some st ∧
      (refreshAll dateParse renderStatus s statusRes alertsRes).allAlerts = al ∧
      (refreshAll dateParse renderStatus s statusRes alertsRes).metrics = updateMetrics al ∧
      (refreshAll dateParse renderStatus s statusRes alertsRes).statusLine = renderStatus st) ∨
    ((refreshAll dateParse renderStatus s statusRes alertsRes).cachedStatus = s.cachedStatus ∧
      (refreshAll dateParse renderStatus s statusRes alertsRes).allAlerts = s.allAlerts ∧
      (refreshAll dateParse renderStatus s statusRes alertsRes).metrics = s.metrics ∧
      (refreshAll dateParse renderStatus s statusRes alertsRes).visible = s.visible ∧
      ∃ e, (statusRes = Except.error e ∨ alertsRes = Except.error e) ∧
        (refreshAll dateParse renderStatus s statusRes alertsRes).statusLine =
          "Dashboard refresh failed: " ++ e) := by
  cases statusRes with
  | ok st =>
    cases alertsRes with
    | ok al => exact Or.inl ⟨st, al, rfl, rfl, rfl, rfl, rfl, rfl⟩
    | error e => exact Or.inr ⟨rfl, rfl, rfl, rfl, e, Or.inr rfl, rfl⟩
  | error e =>
    cases alertsRes with
    | ok al => exact Or.inr ⟨rfl, rfl, rfl, rfl, e, Or.inl rfl, rfl⟩
    | error e2 => exact Or.inr ⟨rfl, rfl, rfl, rfl, e, Or.inl rfl, rfl⟩

/-- C8: the four metrics are exactly the stated counts over the full
unfiltered record set (recomputed wholesale on a successful refresh), and
the filter-change and search-input event paths — which re-run filtering and
rendering — leave both the metrics and the cached full set unchanged. -/
theorem c8_metrics_frame (σ : Type) (dateParse : String → Option Int)
    (renderStatus : σ → String) (st : σ) (s : AppState σ) (v q : String)
    (alerts : List FilingAlert) :
    (updateMetrics alerts).total = alerts.length ∧
    (updateMetrics alerts).cryptoCount = alerts.countP (fun a => a.is_crypto) ∧
    (updateMetrics alerts).regularFormCount = alerts.countP (fun a =>
      ["485APOS", "485BPOS"].contains (String.mk (upperChars a.form_type.toList))) ∧
    (updateMetrics alerts).emailSentCount = alerts.countP (fun a => a.email_sent) ∧
    (refreshAll dateParse renderStatus s (Except.ok st)
      (Except.ok alerts)).metrics = updateMetrics alerts ∧
    (onFormFilterChange dateParse s v).metrics = s.metrics ∧
    (onSearchInput dateParse s q).metrics = s.metrics ∧
    (onFormFilterChange dateParse s v).allAlerts = s.allAlerts ∧
    (onSearchInput dateParse s q).allAlerts = s.allAlerts := by
  refine ⟨rfl, ?_, ?_, ?_, rfl, rfl, rfl, rfl, rfl⟩
  · simp [updateMetrics, List.countP_eq_length_filter]
  · simp [updateMetrics, List.countP_eq_length_filter]
  · simp [updateMetrics, List.countP_eq_length_filter]
